import Mathlib

/-!
Shallow embedding of the enhanced-sampling notebooks of the AdvMS 2023
exercise repository: the overdamped Langevin integrator, trajectory
generation, transition path sampling (fixed- and flexible-length), the
replica-exchange bookkeeping and the running-average helper, together with
theorems checking the specified behaviour of each piece.

Conventions: configurations are embedded as pairs (or lists) of rationals
where only discrete logic matters, and as lists of reals where the
integrator arithmetic (including the square root in the noise prefactor) is
involved; random draws are passed in explicitly as function arguments.
Loop bodies that the notebooks leave as exercise placeholders are modelled
from the specification and marked as such in their doc comments.
-/

namespace AdvMS

/-- Running-average helper from the TI/FEP notebook: if the step index is 0
the accumulator is set to the step index itself, otherwise the usual
running-mean update is applied. -/
def running_average (x : ℚ) (step : ℕ) (avg : ℚ) : ℚ :=
  if step = 0 then (step : ℚ) else (avg * ((step : ℚ) - 1) + x) / (step : ℚ)

/-- Configurations of the 2d model systems. -/
abbrev Config := ℚ × ℚ

/-- Collective variable of the TPS notebook: the diagonal x + y. -/
def custom_cv (current_x : Config) : ℚ :=
  current_x.1 + current_x.2

/-- State indicator of the TPS notebook: true iff the collective variable of
the configuration lies strictly inside the bounds; a missing bound stands for
minus or plus infinity. -/
def custom_bounded_state (current_x : Config) (cv_function : Config → ℚ)
    (lower upper : Option ℚ) : Bool :=
  (match lower with
    | none => true
    | some lo => decide (lo < cv_function current_x)) &&
  (match upper with
    | none => true
    | some hi => decide (cv_function current_x < hi))

/-- State A of the TPS notebook: collective variable in (-infinity, -2). -/
def state_A_indicator (current_x : Config) : Bool :=
  custom_bounded_state current_x custom_cv none (some (-2))

/-- State B of the TPS notebook: collective variable in (2, infinity). -/
def state_B_indicator (current_x : Config) : Bool :=
  custom_bounded_state current_x custom_cv (some 2) none

/-- Modelled from the spec: the reactive-path test of the TPS sampling loops
is an elided placeholder in the notebook; the spec and the notebook text make
a proposal reactive iff the forward and backward endpoints lie in opposing
stable states. -/
def is_reactive_path (fw_in_A fw_in_B rv_in_A rv_in_B : Bool) : Bool :=
  (fw_in_B && rv_in_A) || (fw_in_A && rv_in_B)

/-- Endpoint classification and acceptance decision of one fixed-length TPS
trial: the endpoint indicators are computed from the last configurations of
the forward and backward trajectories as in the sampling loop, and a reactive
proposal is accepted unconditionally. -/
def fixed_length_accept (forward_trj reverse_trj : List Config) : Bool :=
  let fw_in_A := state_A_indicator (forward_trj.getLastD (0, 0))
  let fw_in_B := state_B_indicator (forward_trj.getLastD (0, 0))
  let rv_in_A := state_A_indicator (reverse_trj.getLastD (0, 0))
  let rv_in_B := state_B_indicator (reverse_trj.getLastD (0, 0))
  is_reactive_path fw_in_A fw_in_B rv_in_A rv_in_B

/-- Path constructed on acceptance in both TPS loops: the reversed backward
trajectory stacked on the forward trajectory without its first configuration,
as in current_path = np.vstack of reverse_trj reversed and forward_trj
from index 1. -/
def accepted_path (reverse_trj forward_trj : List Config) : List Config :=
  reverse_trj.reverse ++ forward_trj.tail

/-- Modelled from the spec: the flexible-length ratio is an elided placeholder
in the notebook; per the spec it is N_old / N_new with
N_old = len(current_path) - 1 and N_new = len(forward) + len(backward) - 1
(the source variable is called length_ratio). -/
def length_ratio_of (current_path forward_trj reverse_trj : List Config) : ℚ :=
  ((current_path.length : ℚ) - 1) /
    ((forward_trj.length : ℚ) + (reverse_trj.length : ℚ) - 1)

/-- Modelled from the spec: the flexible-length accept test against the
uniform random draw is an elided placeholder in the notebook; per the spec a
reactive proposal is accepted with probability min(1, length_ratio), i.e. iff
the uniform draw falls below min(1, length_ratio). -/
def flexible_accept (r : ℚ) (draw : ℝ) : Prop :=
  draw < min 1 (r : ℝ)

/-- Iterated application of a single-step propagator: the position reached
after n integrator steps started from the shooting point. -/
def propagate {α : Type} (step_function : ℕ → α → α) (shooting_point : α) : ℕ → α
  | 0 => shooting_point
  | n + 1 => step_function n (propagate step_function shooting_point n)

/-- Modelled from the spec: the body of generate_path is an elided placeholder
in the notebook (only previous_x = shooting_point.copy() remains); per the
spec it applies the integrator path_length times starting from the shooting
point, records every configuration_output_frequency-th configuration and
returns the trajectory including the initial point. -/
def generate_path {α : Type} (shooting_point : α) (path_length : ℕ)
    (configuration_output_frequency : ℕ) (step_function : ℕ → α → α) : List α :=
  shooting_point ::
    (((List.range path_length).filter
        (fun step => step % configuration_output_frequency == 0)).map
      (fun step => propagate step_function shooting_point (step + 1)))

/-- One whole TPS sampling run, with the per-trial accept decision and the
proposed replacement path abstracted as oracles: on acceptance the current
path is replaced by the proposal, and past the equilibration threshold the
current path is appended to the trajectory ensemble at every
path_output_frequency-th trial, accepted or not, exactly as in the two
sampling loops of the notebook. -/
def tps_sampling_loop (total_trials equilibration_trials path_output_frequency : ℕ)
    (accept : ℕ → Bool) (proposal : ℕ → List Config → List Config)
    (initial_path : List Config) : List Config × List (List Config) :=
  (List.range total_trials).foldl
    (fun st trial =>
      let cur := if accept trial then proposal trial st.1 else st.1
      (cur,
        if equilibration_trials < trial ∧ trial % path_output_frequency = 0 then
          st.2 ++ [cur]
        else st.2))
    (initial_path, [])

/-- Current path held by the TPS sampler after a given number of trials. -/
def tps_current_after (accept : ℕ → Bool) (proposal : ℕ → List Config → List Config)
    (initial_path : List Config) : ℕ → List Config
  | 0 => initial_path
  | t + 1 =>
    if accept t then proposal t (tps_current_after accept proposal initial_path t)
    else tps_current_after accept proposal initial_path t

/-- Modelled from the spec: the exchange body of the REMD loop is an elided
placeholder in the notebook (only the skeleton with the guard
step % exchange_frequency != 0 -> continue remains); per the spec each
non-skipped step performs one attempted swap of a chosen pair, increments the
exchange-matrix counter of that pair on the attempt, and swaps the two
configurations only when the Metropolis test accepts. The propagation of
every replica and the accept decision are abstracted as oracles. -/
def remd_step {α : Type} (exchange_frequency : ℕ) (pair : ℕ → ℕ × ℕ)
    (accept : ℕ → Bool) (prop : ℕ → (ℕ → α) → (ℕ → α))
    (st : (ℕ → ℕ → ℕ) × (ℕ → α)) (step : ℕ) : (ℕ → ℕ → ℕ) × (ℕ → α) :=
  let configs := prop step st.2
  if step % exchange_frequency ≠ 0 then (st.1, configs)
  else
    (fun a b => if a = (pair step).1 ∧ b = (pair step).2 then st.1 a b + 1 else st.1 a b,
      if accept step then
        fun a =>
          if a = (pair step).1 then configs (pair step).2
          else if a = (pair step).2 then configs (pair step).1
          else configs a
      else configs)

/-- REMD run over total_steps integration steps starting from the
all-zero exchange matrix. -/
def remd_run {α : Type} (total_steps exchange_frequency : ℕ) (pair : ℕ → ℕ × ℕ)
    (accept : ℕ → Bool) (prop : ℕ → (ℕ → α) → (ℕ → α)) (init : ℕ → α) :
    (ℕ → ℕ → ℕ) × (ℕ → α) :=
  (List.range total_steps).foldl (remd_step exchange_frequency pair accept prop)
    ((fun _ _ => 0), init)

/-- Pointwise overdamped Langevin update computed by update_positions:
next_x = current_x + (D * dt * force * beta + sqrt(2 * D * dt) * gauss_rand),
with one standard-normal draw per coordinate of current_x (the draws are
passed in through gauss). -/
noncomputable def next_position (current_x force : List ℝ) (beta dt diffusion_coeff : ℝ)
    (gauss : ℕ → ℝ) : List ℝ :=
  List.zipWith
    (fun xf g =>
      xf.1 + (diffusion_coeff * dt * xf.2 * beta + Real.sqrt (2 * diffusion_coeff * dt) * g))
    (current_x.zip force) ((List.range current_x.length).map gauss)

/-- update_positions from the miniMD cell of the TI/FEP notebook: the four
assertions guard the timestep, the diffusion coefficient, beta and the shape
match, in source order, and on success the freshly computed configuration is
returned. -/
noncomputable def update_positions (current_x force : List ℝ) (beta dt diffusion_coeff : ℝ)
    (gauss : ℕ → ℝ) : Except String (List ℝ) :=
  if ¬ dt > 0 then Except.error "Timestep must be positive."
  else if ¬ diffusion_coeff > 0 then Except.error "Diffusion coefficient must be positive."
  else if ¬ beta > 0 then Except.error "Temperature must be positive."
  else if ¬ current_x.length = force.length then
    Except.error "Force and position vector must be of the same size, check your force function."
  else Except.ok (next_position current_x force beta dt diffusion_coeff gauss)

/-- update_positions in a store-passing model of the numpy heap: an array
value is an index into the store of array contents, and the update
next_x = current_x + dx allocates a fresh array (numpy addition is not an
in-place operation), so the store is only ever extended. -/
noncomputable def update_positions_heap (h : List (List ℝ)) (x_index : ℕ) (force : List ℝ)
    (beta dt diffusion_coeff : ℝ) (gauss : ℕ → ℝ) : List (List ℝ) × ℕ :=
  (h ++ [next_position (h.getD x_index []) force beta dt diffusion_coeff gauss], h.length)

/-- Integration loop of generate_path in the heap model: previous_x is rebound
to the freshly allocated integrator result of each step. -/
noncomputable def generate_path_heap_loop (force_function : List ℝ → List ℝ)
    (beta dt diffusion_coeff : ℝ) (gauss : ℕ → ℕ → ℝ) :
    ℕ → List (List ℝ) × ℕ → List (List ℝ) × ℕ
  | 0, st => st
  | n + 1, st =>
    generate_path_heap_loop force_function beta dt diffusion_coeff gauss n
      (update_positions_heap st.1 st.2 (force_function (st.1.getD st.2 []))
        beta dt diffusion_coeff (gauss n))

/-- Modelled from the spec: generate_path in the heap model; the loop body is
an elided placeholder in the notebook except
previous_x = shooting_point.copy(), which allocates a copy of the shooting
point before the integration loop runs on the copy. -/
noncomputable def generate_path_heap (h : List (List ℝ)) (shooting_point : ℕ)
    (path_length : ℕ) (force_function : List ℝ → List ℝ)
    (beta dt diffusion_coeff : ℝ) (gauss : ℕ → ℕ → ℝ) : List (List ℝ) × ℕ :=
  generate_path_heap_loop force_function beta dt diffusion_coeff gauss path_length
    (h ++ [h.getD shooting_point []], h.length)

/-- Integration loop of generate_path_to_state in the heap model: identical to
the generate_path loop but stopping as soon as any state indicator fires on
the current configuration. -/
noncomputable def generate_path_to_state_heap_loop (state_functions : List (List ℝ → Bool))
    (force_function : List ℝ → List ℝ) (beta dt diffusion_coeff : ℝ)
    (gauss : ℕ → ℕ → ℝ) : ℕ → List (List ℝ) × ℕ → List (List ℝ) × ℕ
  | 0, st => st
  | n + 1, st =>
    if state_functions.any (fun s => s (st.1.getD st.2 [])) then st
    else
      generate_path_to_state_heap_loop state_functions force_function beta dt
        diffusion_coeff gauss n
        (update_positions_heap st.1 st.2 (force_function (st.1.getD st.2 []))
          beta dt diffusion_coeff (gauss n))

/-- Modelled from the spec: generate_path_to_state in the heap model; the loop
body is an elided placeholder in the notebook except
previous_x = shooting_point.copy(). -/
noncomputable def generate_path_to_state_heap (h : List (List ℝ)) (shooting_point : ℕ)
    (path_length : ℕ) (state_functions : List (List ℝ → Bool))
    (force_function : List ℝ → List ℝ) (beta dt diffusion_coeff : ℝ)
    (gauss : ℕ → ℕ → ℝ) : List (List ℝ) × ℕ :=
  generate_path_to_state_heap_loop state_functions force_function beta dt diffusion_coeff
    gauss path_length (h ++ [h.getD shooting_point []], h.length)

/-- Helper: adding one more candidate step raises the ceiling count
(T + f - 1) / f exactly when the new step index T is a multiple of f. -/
theorem ceil_div_succ (f : ℕ) (hf : 0 < f) (T : ℕ) :
    (T + 1 + f - 1) / f = (T + f - 1) / f + (if T % f = 0 then 1 else 0) := by
  have hT : f * (T / f) + T % f = T := Nat.div_add_mod T f
  have hr : T % f < f := Nat.mod_lt _ hf
  by_cases h : T % f = 0
  · have h1 : T + 1 + f - 1 = f * (T / f + 1) := by
      have : f * (T / f + 1) = f * (T / f) + f := by ring
      omega
    have h2 : T + f - 1 = f * (T / f) + (f - 1) := by omega
    have h3 : (f - 1) / f = 0 := Nat.div_eq_of_lt (by omega)
    rw [h1, h2, Nat.mul_div_cancel_left _ hf, Nat.mul_add_div hf, h3]
    simp [h]
  · have h1 : T + 1 + f - 1 = f * (T / f + 1) + T % f := by
      have : f * (T / f + 1) = f * (T / f) + f := by ring
      omega
    have h2 : T + f - 1 = f * (T / f + 1) + (T % f - 1) := by
      have : f * (T / f + 1) = f * (T / f) + f := by ring
      omega
    have h3 : (T % f - 1) / f = 0 := Nat.div_eq_of_lt (by omega)
    have h4 : T % f / f = 0 := Nat.div_eq_of_lt hr
    rw [h1, h2, Nat.mul_add_div hf, Nat.mul_add_div hf, h3, h4]
    simp [h]

/-- Helper: among the step indices 0, 1, ..., N - 1 exactly
(N + s - 1) / s (the ceiling of N / s) are multiples of the stride s. -/
theorem count_stride_hits (s : ℕ) (hs : 0 < s) (N : ℕ) :
    (List.range N).countP (fun step => step % s == 0) = (N + s - 1) / s := by
  induction N with
  | zero =>
    simp only [List.range_zero, List.countP_nil]
    exact (Nat.div_eq_of_lt (by omega)).symm
  | succ n ih =>
    rw [List.range_succ, List.countP_append, ih, ceil_div_succ s hs n]
    simp only [List.countP_cons, List.countP_nil]
    by_cases h : n % s = 0 <;> simp [h]

/-- Claim C8: for every starting configuration, step count and output stride,
generate_path returns a trajectory of exactly ceil(N / stride) + 1
configurations (here written (N + stride - 1) / stride + 1) whose first
element is the starting configuration. -/
theorem generate_path_length_and_head {α : Type} (shooting_point : α)
    (path_length stride : ℕ) (step_function : ℕ → α → α) (hs : 0 < stride) :
    (generate_path shooting_point path_length stride step_function).length =
      (path_length + stride - 1) / stride + 1 ∧
    (generate_path shooting_point path_length stride step_function).head? =
      some shooting_point := by
  refine ⟨?_, rfl⟩
  simp only [generate_path, List.length_cons, List.length_map]
  rw [← List.countP_eq_length_filter, count_stride_hits stride hs path_length]

/-- Witness for C8: a run of 5 steps with stride 2 yields a trajectory of
ceil(5 / 2) + 1 = 4 configurations starting at the shooting point. -/
theorem generate_path_length_and_head_witness :
    0 < 2 ∧
    ((generate_path (0 : ℚ) 5 2 (fun _ x => x + 1)).length = (5 + 2 - 1) / 2 + 1 ∧
      (generate_path (0 : ℚ) 5 2 (fun _ x => x + 1)).head? = some 0) :=
  ⟨by decide, generate_path_length_and_head 0 5 2 (fun _ x => x + 1) (by decide)⟩

/-- Claim C3 (code bug): the running-average helper seeds the accumulator with
the step index, so its first update (step = 0) returns 0 and not the sample
itself; here evaluated at sample 5 with prior accumulator 3. -/
theorem running_average_zero_seed :
    running_average 5 0 3 = 0 ∧ (∀ x avg : ℚ, running_average x 0 avg = 0) ∧
      (0 : ℚ) ≠ 5 := by
  refine ⟨?_, fun x avg => ?_, by norm_num⟩ <;> simp [running_average]

/-- Claim C5: a fixed-length TPS proposal is accepted (with no random draw)
iff its forward and backward endpoints lie in opposing stable states; the two
states are disjoint, and a proposal whose endpoints lie in the same state, or
with an endpoint in neither state, is rejected. -/
theorem fixed_length_accept_iff (forward_trj reverse_trj : List Config) :
    (fixed_length_accept forward_trj reverse_trj = true ↔
      ((state_B_indicator (forward_trj.getLastD (0, 0)) = true ∧
          state_A_indicator (reverse_trj.getLastD (0, 0)) = true) ∨
        (state_A_indicator (forward_trj.getLastD (0, 0)) = true ∧
          state_B_indicator (reverse_trj.getLastD (0, 0)) = true))) ∧
    (∀ x : Config, ¬(state_A_indicator x = true ∧ state_B_indicator x = true)) ∧
    ((state_A_indicator (forward_trj.getLastD (0, 0)) = true ∧
        state_A_indicator (reverse_trj.getLastD (0, 0)) = true) →
      fixed_length_accept forward_trj reverse_trj = false) ∧
    ((state_B_indicator (forward_trj.getLastD (0, 0)) = true ∧
        state_B_indicator (reverse_trj.getLastD (0, 0)) = true) →
      fixed_length_accept forward_trj reverse_trj = false) ∧
    ((state_A_indicator (forward_trj.getLastD (0, 0)) = false ∧
        state_B_indicator (forward_trj.getLastD (0, 0)) = false) →
      fixed_length_accept forward_trj reverse_trj = false) ∧
    ((state_A_indicator (reverse_trj.getLastD (0, 0)) = false ∧
        state_B_indicator (reverse_trj.getLastD (0, 0)) = false) →
      fixed_length_accept forward_trj reverse_trj = false) := by
  have hdisj : ∀ x : Config, ¬(state_A_indicator x = true ∧ state_B_indicator x = true) := by
    rintro x ⟨hA, hB⟩
    simp only [state_A_indicator, state_B_indicator, custom_bounded_state, custom_cv,
      Bool.and_eq_true, decide_eq_true_eq, Bool.true_and, Bool.and_true] at hA hB
    linarith
  refine ⟨?_, hdisj, ?_, ?_, ?_, ?_⟩
  · simp only [fixed_length_accept, is_reactive_path, Bool.or_eq_true, Bool.and_eq_true]
  · rintro ⟨h1, h2⟩
    have hB1 : state_B_indicator (forward_trj.getLastD (0, 0)) = false :=
      Bool.eq_false_iff.mpr (fun h => hdisj _ ⟨h1, h⟩)
    have hB2 : state_B_indicator (reverse_trj.getLastD (0, 0)) = false :=
      Bool.eq_false_iff.mpr (fun h => hdisj _ ⟨h2, h⟩)
    simp only [fixed_length_accept, is_reactive_path]
    rw [hB1, hB2]
    simp only [Bool.false_and, Bool.and_false, Bool.or_self]
  · rintro ⟨h1, h2⟩
    have hA1 : state_A_indicator (forward_trj.getLastD (0, 0)) = false :=
      Bool.eq_false_iff.mpr (fun h => hdisj _ ⟨h, h1⟩)
    have hA2 : state_A_indicator (reverse_trj.getLastD (0, 0)) = false :=
      Bool.eq_false_iff.mpr (fun h => hdisj _ ⟨h, h2⟩)
    simp only [fixed_length_accept, is_reactive_path]
    rw [hA1, hA2]
    simp only [Bool.and_false, Bool.false_and, Bool.or_self]
  · rintro ⟨h1, h2⟩
    simp only [fixed_length_accept, is_reactive_path]
    rw [h1, h2]
    simp only [Bool.false_and, Bool.or_self]
  · rintro ⟨h1, h2⟩
    simp only [fixed_length_accept, is_reactive_path]
    rw [h1, h2]
    simp only [Bool.and_false, Bool.or_self]

/-- Witness for C5: a forward trajectory ending in state B and a backward
trajectory ending in state A is accepted. -/
theorem fixed_length_accept_iff_witness :
    fixed_length_accept [((2 : ℚ), (2 : ℚ))] [((-2 : ℚ), (-2 : ℚ))] = true :=
  ((fixed_length_accept_iff [((2 : ℚ), (2 : ℚ))] [((-2 : ℚ), (-2 : ℚ))]).1).mpr
    (Or.inl ⟨by norm_num [state_B_indicator, custom_bounded_state, custom_cv],
      by norm_num [state_A_indicator, custom_bounded_state, custom_cv]⟩)

/-- Claim C6: on acceptance the new current path is the reversed backward
trajectory followed by the forward trajectory without its first element;
when both sub-trajectories start at the same shooting point the duplicated
copy is dropped (the count of the shooting point decreases by one, and it is
exactly one when each sub-trajectory holds it only as its head), the shooting
point sits at the last index of the reversed backward part, and the new
length is len(backward) + len(forward) - 1. -/
theorem accepted_path_spec (sp : Config) (forward_trj reverse_trj : List Config)
    (hfw : forward_trj.head? = some sp) (hrv : reverse_trj.head? = some sp) :
    accepted_path reverse_trj forward_trj = reverse_trj.reverse ++ forward_trj.tail ∧
    (accepted_path reverse_trj forward_trj).length =
      reverse_trj.length + forward_trj.length - 1 ∧
    (accepted_path reverse_trj forward_trj).count sp =
      reverse_trj.count sp + forward_trj.count sp - 1 ∧
    (accepted_path reverse_trj forward_trj)[reverse_trj.length - 1]? = some sp ∧
    (reverse_trj.count sp = 1 → forward_trj.count sp = 1 →
      (accepted_path reverse_trj forward_trj).count sp = 1) := by
  obtain ⟨rt, hr⟩ : ∃ rt, reverse_trj = sp :: rt := by
    cases reverse_trj with
    | nil => exact absurd hrv (by simp)
    | cons a l =>
      simp only [List.head?_cons, Option.some.injEq] at hrv
      exact ⟨l, by rw [hrv]⟩
  obtain ⟨ft, hf⟩ : ∃ ft, forward_trj = sp :: ft := by
    cases forward_trj with
    | nil => exact absurd hfw (by simp)
    | cons a l =>
      simp only [List.head?_cons, Option.some.injEq] at hfw
      exact ⟨l, by rw [hfw]⟩
  subst hr hf
  have hcount : (accepted_path (sp :: rt) (sp :: ft)).count sp =
      (sp :: rt).count sp + (sp :: ft).count sp - 1 := by
    simp only [accepted_path, List.tail_cons, List.count_append, List.count_reverse,
      List.count_cons_self]
    omega
  refine ⟨rfl, ?_, hcount, ?_, ?_⟩
  · simp only [accepted_path, List.length_append, List.length_reverse, List.length_cons,
      List.tail_cons]
    omega
  · simp only [accepted_path, List.reverse_cons, List.tail_cons, List.length_cons,
      Nat.add_sub_cancel, List.append_assoc, List.singleton_append]
    rw [List.getElem?_append_right (by simp)]
    simp
  · intro h1 h2
    rw [hcount, h1, h2]

/-- Witness for C6: backward trajectory [(2,2), (1,1)] and forward trajectory
[(2,2), (3,3)], both shot from (2,2). -/
theorem accepted_path_spec_witness :
    (([((2 : ℚ), (2 : ℚ)), (3, 3)] : List Config).head? = some (2, 2)) ∧
    (([((2 : ℚ), (2 : ℚ)), (1, 1)] : List Config).head? = some (2, 2)) ∧
    (accepted_path [((2 : ℚ), (2 : ℚ)), (1, 1)] [((2 : ℚ), (2 : ℚ)), (3, 3)] =
        ([((2 : ℚ), (2 : ℚ)), (1, 1)] : List Config).reverse ++
          ([((2 : ℚ), (2 : ℚ)), (3, 3)] : List Config).tail ∧
      (accepted_path [((2 : ℚ), (2 : ℚ)), (1, 1)] [((2 : ℚ), (2 : ℚ)), (3, 3)]).length =
        ([((2 : ℚ), (2 : ℚ)), (1, 1)] : List Config).length +
          ([((2 : ℚ), (2 : ℚ)), (3, 3)] : List Config).length - 1 ∧
      (accepted_path [((2 : ℚ), (2 : ℚ)), (1, 1)] [((2 : ℚ), (2 : ℚ)), (3, 3)]).count (2, 2) =
        ([((2 : ℚ), (2 : ℚ)), (1, 1)] : List Config).count (2, 2) +
          ([((2 : ℚ), (2 : ℚ)), (3, 3)] : List Config).count (2, 2) - 1 ∧
      (accepted_path [((2 : ℚ), (2 : ℚ)), (1, 1)]
          [((2 : ℚ), (2 : ℚ)), (3, 3)])[([((2 : ℚ), (2 : ℚ)), (1, 1)] : List Config).length - 1]? =
        some (2, 2) ∧
      (([((2 : ℚ), (2 : ℚ)), (1, 1)] : List Config).count (2, 2) = 1 →
        ([((2 : ℚ), (2 : ℚ)), (3, 3)] : List Config).count (2, 2) = 1 →
        (accepted_path [((2 : ℚ), (2 : ℚ)), (1, 1)] [((2 : ℚ), (2 : ℚ)), (3, 3)]).count (2, 2) = 1)) :=
  ⟨rfl, rfl,
    accepted_path_spec (2, 2) [((2 : ℚ), (2 : ℚ)), (3, 3)] [((2 : ℚ), (2 : ℚ)), (1, 1)] rfl rfl⟩

/-- Claim C7: the TPS run keeps the current path unchanged on rejection, and
at every trial past the equilibration threshold whose index is a multiple of
the path output frequency it appends the current path to the ensemble whether
the trial was accepted or rejected, so the ensemble is exactly the sequence
of current paths at the sampled trials, repeats included. -/
theorem tps_ensemble_spec (total_trials equilibration_trials path_output_frequency : ℕ)
    (accept : ℕ → Bool) (proposal : ℕ → List Config → List Config)
    (initial_path : List Config) :
    (tps_sampling_loop total_trials equilibration_trials path_output_frequency accept
        proposal initial_path).1 =
      tps_current_after accept proposal initial_path total_trials ∧
    (tps_sampling_loop total_trials equilibration_trials path_output_frequency accept
        proposal initial_path).2 =
      ((List.range total_trials).filter
          (fun t => decide (equilibration_trials < t ∧ t % path_output_frequency = 0))).map
        (fun t => tps_current_after accept proposal initial_path (t + 1)) ∧
    (∀ t, accept t = false →
      tps_current_after accept proposal initial_path (t + 1) =
        tps_current_after accept proposal initial_path t) := by
  have key : ∀ T : ℕ,
      tps_sampling_loop T equilibration_trials path_output_frequency accept proposal
          initial_path =
        (tps_current_after accept proposal initial_path T,
          ((List.range T).filter
              (fun t => decide (equilibration_trials < t ∧ t % path_output_frequency = 0))).map
            (fun t => tps_current_after accept proposal initial_path (t + 1))) := by
    intro T
    induction T with
    | zero => rfl
    | succ n ih =>
      unfold tps_sampling_loop at ih ⊢
      rw [List.range_succ, List.foldl_append, ih]
      simp only [List.foldl_cons, List.foldl_nil, List.filter_append, List.map_append]
      by_cases hP : equilibration_trials < n ∧ n % path_output_frequency = 0 <;>
        simp [hP, tps_current_after]
  exact ⟨by rw [key], by rw [key], fun t ht => by simp [tps_current_after, ht]⟩

/-- Helper: bumping one entry of an N by N count matrix inside its index
range raises the total count by exactly one. -/
theorem sum_update_pair (N : ℕ) (M : ℕ → ℕ → ℕ) (i0 j0 : ℕ) (hi : i0 < N) (hj : j0 < N) :
    (∑ a in Finset.range N, ∑ b in Finset.range N,
        (if a = i0 ∧ b = j0 then M a b + 1 else M a b)) =
      (∑ a in Finset.range N, ∑ b in Finset.range N, M a b) + 1 := by
  have h : ∀ a b, (if a = i0 ∧ b = j0 then M a b + 1 else M a b) =
      M a b + (if a = i0 then (if b = j0 then 1 else 0) else 0) := by
    intro a b
    by_cases h1 : a = i0 <;> by_cases h2 : b = j0 <;> simp [h1, h2]
  simp only [h]
  have hb : (∑ b in Finset.range N, (if b = j0 then (1 : ℕ) else 0)) = 1 := by
    rw [Finset.sum_ite_eq' (Finset.range N) j0 (fun _ => (1 : ℕ))]
    simp [Finset.mem_range.mpr hj]
  have hcol : ∀ a, (∑ b in Finset.range N,
      (if a = i0 then (if b = j0 then (1 : ℕ) else 0) else 0)) = (if a = i0 then 1 else 0) := by
    intro a
    by_cases h1 : a = i0
    · rw [if_pos h1]
      simpa [h1] using hb
    · simp [h1]
  have hrow : ∀ a, (∑ b in Finset.range N,
      (M a b + (if a = i0 then (if b = j0 then (1 : ℕ) else 0) else 0))) =
      (∑ b in Finset.range N, M a b) + (if a = i0 then 1 else 0) := by
    intro a
    rw [Finset.sum_add_distrib, hcol a]
  rw [Finset.sum_congr rfl (fun a _ => hrow a), Finset.sum_add_distrib]
  congr 1
  rw [Finset.sum_ite_eq' (Finset.range N) i0 (fun _ => (1 : ℕ))]
  simp [Finset.mem_range.mpr hi]

/-- Claim C4 (amended): the exchange matrix counts every attempted swap, so
for any accept oracle the sum of all its entries after the run equals the
number of steps below total_steps that are multiples of exchange_frequency,
namely ceil(total_steps / exchange_frequency), written
(total_steps + exchange_frequency - 1) / exchange_frequency; this equals
total_steps / exchange_frequency exactly when the frequency divides the step
count. -/
theorem remd_attempt_count {α : Type} (total_steps exchange_frequency N : ℕ)
    (pair : ℕ → ℕ × ℕ) (accept : ℕ → Bool) (prop : ℕ → (ℕ → α) → (ℕ → α))
    (init : ℕ → α) (hf : 0 < exchange_frequency)
    (hpair : ∀ s, (pair s).1 < N ∧ (pair s).2 < N) :
    (∑ a in Finset.range N, ∑ b in Finset.range N,
        (remd_run total_steps exchange_frequency pair accept prop init).1 a b) =
      (total_steps + exchange_frequency - 1) / exchange_frequency := by
  induction total_steps with
  | zero =>
    simp only [remd_run, List.range_zero, List.foldl_nil]
    rw [Nat.div_eq_of_lt (by omega)]
    simp
  | succ n ih =>
    have hrun : remd_run (n + 1) exchange_frequency pair accept prop init =
        remd_step exchange_frequency pair accept prop
          (remd_run n exchange_frequency pair accept prop init) n := by
      unfold remd_run
      rw [List.range_succ, List.foldl_append, List.foldl_cons, List.foldl_nil]
    rw [hrun, ceil_div_succ _ hf n, ← ih]
    by_cases hn : n % exchange_frequency = 0
    · simp only [remd_step, hn, ne_eq, not_true_eq_false, if_false]
      rw [sum_update_pair N _ _ _ (hpair n).1 (hpair n).2]
      simp [hn]
    · simp [remd_step, hn]

/-- Witness for C4: four steps at exchange frequency two with replica pair
(0, 1) and an always-rejecting accept oracle give ceil(4 / 2) = 2 attempts. -/
theorem remd_attempt_count_witness :
    0 < 2 ∧
    (∀ s : ℕ, ((fun _ : ℕ => ((0 : ℕ), (1 : ℕ))) s).1 < 2 ∧
      ((fun _ : ℕ => ((0 : ℕ), (1 : ℕ))) s).2 < 2) ∧
    (∑ a in Finset.range 2, ∑ b in Finset.range 2,
        (remd_run 4 2 (fun _ => (0, 1)) (fun _ => false) (fun _ c => c)
            (fun _ => (0 : ℕ))).1 a b) = (4 + 2 - 1) / 2 :=
  ⟨by decide, fun _ => ⟨by norm_num, by norm_num⟩,
    remd_attempt_count 4 2 2 _ _ _ _ (by decide) (fun _ => ⟨by norm_num, by norm_num⟩)⟩

/-- Counterexample for C4 as stated: a run of 5 total steps at exchange
frequency 2 (with 2 replicas, constant attempted pair (0, 1)) performs
attempts at steps 0, 2 and 4, so the attempted-pair counts sum to 3, while
the claim predicts total_steps // exchange_frequency = 5 // 2 = 2. -/
theorem remd_attempt_count_floor_claim_fails :
    (∑ a in Finset.range 2, ∑ b in Finset.range 2,
        (remd_run 5 2 (fun _ => (0, 1)) (fun _ => true) (fun _ c => c)
            (fun _ => (0 : ℕ))).1 a b) = 3 ∧
      5 / 2 = 2 ∧ (3 : ℕ) ≠ 2 := by
  refine ⟨by decide, rfl, by decide⟩

/-- Helper: the accept region of a uniform draw in [0, 1) is the interval
from 0 to min(1, length ratio). -/
theorem flexible_accept_region (r : ℚ) :
    {u : ℝ | u ∈ Set.Ico (0 : ℝ) 1 ∧ flexible_accept r u} =
      Set.Ico (0 : ℝ) (min 1 (r : ℝ)) := by
  ext u
  simp only [Set.mem_setOf_eq, Set.mem_Ico, flexible_accept, lt_min_iff]
  constructor
  · rintro ⟨⟨h0, _⟩, h1, h2⟩
    exact ⟨h0, h1, h2⟩
  · rintro ⟨h0, h1, h2⟩
    exact ⟨⟨h0, h1⟩, h1, h2⟩

/-- Claim C1: the flexible-length sampler accepts a reactive proposal with
probability min(1, length_ratio) over the uniform draw, where the ratio is
(len(current_path) - 1) / (len(forward) + len(backward) - 1); with
N_old = 100 and N_new = 50 the ratio is 2 and the acceptance probability is
exactly 1, and with N_old = 100 and N_new = 200 the ratio is 1/2 and the
acceptance probability is exactly 1/2. -/
theorem flexible_length_acceptance :
    (∀ current_path forward_trj reverse_trj : List Config,
      MeasureTheory.volume
          {u : ℝ | u ∈ Set.Ico (0 : ℝ) 1 ∧
            flexible_accept (length_ratio_of current_path forward_trj reverse_trj) u} =
        ENNReal.ofReal
          (min 1 ((length_ratio_of current_path forward_trj reverse_trj : ℚ) : ℝ))) ∧
    length_ratio_of (List.replicate 101 ((0 : ℚ), (0 : ℚ)))
      (List.replicate 26 ((0 : ℚ), (0 : ℚ))) (List.replicate 25 ((0 : ℚ), (0 : ℚ))) = 2 ∧
    MeasureTheory.volume
        {u : ℝ | u ∈ Set.Ico (0 : ℝ) 1 ∧
          flexible_accept (length_ratio_of (List.replicate 101 ((0 : ℚ), (0 : ℚ)))
            (List.replicate 26 ((0 : ℚ), (0 : ℚ)))
            (List.replicate 25 ((0 : ℚ), (0 : ℚ)))) u} = 1 ∧
    length_ratio_of (List.replicate 101 ((0 : ℚ), (0 : ℚ)))
      (List.replicate 101 ((0 : ℚ), (0 : ℚ))) (List.replicate 100 ((0 : ℚ), (0 : ℚ))) = 1 / 2 ∧
    MeasureTheory.volume
        {u : ℝ | u ∈ Set.Ico (0 : ℝ) 1 ∧
          flexible_accept (length_ratio_of (List.replicate 101 ((0 : ℚ), (0 : ℚ)))
            (List.replicate 101 ((0 : ℚ), (0 : ℚ)))
            (List.replicate 100 ((0 : ℚ), (0 : ℚ)))) u} = ENNReal.ofReal (1 / 2) := by
  have hgen : ∀ c f b : List Config,
      MeasureTheory.volume
          {u : ℝ | u ∈ Set.Ico (0 : ℝ) 1 ∧ flexible_accept (length_ratio_of c f b) u} =
        ENNReal.ofReal (min 1 ((length_ratio_of c f b : ℚ) : ℝ)) := by
    intro c f b
    rw [flexible_accept_region, Real.volume_Ico, sub_zero]
  have hr1 : length_ratio_of (List.replicate 101 ((0 : ℚ), (0 : ℚ)))
      (List.replicate 26 ((0 : ℚ), (0 : ℚ))) (List.replicate 25 ((0 : ℚ), (0 : ℚ))) = 2 := by
    norm_num [length_ratio_of]
  have hr2 : length_ratio_of (List.replicate 101 ((0 : ℚ), (0 : ℚ)))
      (List.replicate 101 ((0 : ℚ), (0 : ℚ))) (List.replicate 100 ((0 : ℚ), (0 : ℚ))) = 1 / 2 := by
    norm_num [length_ratio_of]
  refine ⟨hgen, hr1, ?_, hr2, ?_⟩
  · rw [hgen, hr1]
    rw [show ((2 : ℚ) : ℝ) = 2 by norm_num, show min (1 : ℝ) 2 = 1 by norm_num [min_def],
      ENNReal.ofReal_one]
  · rw [hgen, hr2]
    congr 1
    rw [show ((1 / 2 : ℚ) : ℝ) = 1 / 2 by norm_num]
    norm_num [min_def]

/-- Helper: the integrator output has the shape of the input configuration. -/
theorem next_position_length (current_x force : List ℝ) (beta dt diffusion_coeff : ℝ)
    (gauss : ℕ → ℝ) (h : current_x.length = force.length) :
    (next_position current_x force beta dt diffusion_coeff gauss).length =
      current_x.length := by
  simp [next_position, ← h]

/-- Helper: pointwise value of the integrator output. -/
theorem next_position_getD (current_x force : List ℝ) (beta dt diffusion_coeff : ℝ)
    (gauss : ℕ → ℝ) (h : current_x.length = force.length) (i : ℕ)
    (hi : i < current_x.length) :
    (next_position current_x force beta dt diffusion_coeff gauss).getD i 0 =
      current_x.getD i 0 + diffusion_coeff * beta * force.getD i 0 * dt +
        Real.sqrt (2 * diffusion_coeff * dt) * gauss i := by
  have hlen : i < (next_position current_x force beta dt diffusion_coeff gauss).length := by
    rw [next_position_length current_x force beta dt diffusion_coeff gauss h]
    exact hi
  rw [List.getD_eq_getElem _ _ hlen, List.getD_eq_getElem _ _ hi,
    List.getD_eq_getElem _ _ (h ▸ hi)]
  simp only [next_position, List.getElem_zipWith, List.getElem_zip, List.getElem_map,
    List.getElem_range]
  ring

/-- Claim C2: under the preconditions the integrator step succeeds and
returns a configuration of the same shape whose i-th coordinate is
x_i + D * beta * force_i * dt + sqrt(2 * D * dt) * gauss_i, with one noise
draw per coordinate. -/
theorem update_positions_step (current_x force : List ℝ) (beta dt diffusion_coeff : ℝ)
    (gauss : ℕ → ℝ) (hdt : 0 < dt) (hD : 0 < diffusion_coeff) (hbeta : 0 < beta)
    (hshape : current_x.length = force.length) :
    ∃ next_x, update_positions current_x force beta dt diffusion_coeff gauss =
        Except.ok next_x ∧
      next_x.length = current_x.length ∧
      ∀ i, i < current_x.length →
        next_x.getD i 0 = current_x.getD i 0 +
          diffusion_coeff * beta * force.getD i 0 * dt +
          Real.sqrt (2 * diffusion_coeff * dt) * gauss i := by
  refine ⟨next_position current_x force beta dt diffusion_coeff gauss, ?_,
    next_position_length current_x force beta dt diffusion_coeff gauss hshape,
    fun i hi => next_position_getD current_x force beta dt diffusion_coeff gauss hshape i hi⟩
  unfold update_positions
  rw [if_neg (by simpa using hdt), if_neg (by simpa using hD), if_neg (by simpa using hbeta),
    if_neg (by simpa using hshape)]

/-- Witness for C2: one step on the configuration [1] with force [2] at
beta = dt = D = 1 and noise draw 3. -/
theorem update_positions_step_witness :
    (0 : ℝ) < 1 ∧
    ([(1 : ℝ)] : List ℝ).length = ([(2 : ℝ)] : List ℝ).length ∧
    (∃ next_x, update_positions [(1 : ℝ)] [(2 : ℝ)] 1 1 1 (fun _ => 3) =
        Except.ok next_x ∧
      next_x.length = ([(1 : ℝ)] : List ℝ).length ∧
      ∀ i, i < ([(1 : ℝ)] : List ℝ).length →
        next_x.getD i 0 = ([(1 : ℝ)] : List ℝ).getD i 0 +
          1 * 1 * ([(2 : ℝ)] : List ℝ).getD i 0 * 1 +
          Real.sqrt (2 * 1 * 1) * (fun _ => (3 : ℝ)) i) :=
  ⟨one_pos, rfl,
    update_positions_step [(1 : ℝ)] [(2 : ℝ)] 1 1 1 (fun _ => 3) one_pos one_pos one_pos rfl⟩

/-- Claim C9: the integrator fails fast, returning an error (and no updated
configuration) iff the timestep, the diffusion coefficient or beta is
non-positive or the force shape differs from the configuration shape, and
succeeds iff all four preconditions hold. -/
theorem update_positions_precondition (current_x force : List ℝ)
    (beta dt diffusion_coeff : ℝ) (gauss : ℕ → ℝ) :
    (∃ y, update_positions current_x force beta dt diffusion_coeff gauss = Except.ok y) ↔
      (0 < dt ∧ 0 < diffusion_coeff ∧ 0 < beta ∧ current_x.length = force.length) := by
  unfold update_positions
  by_cases hdt : 0 < dt
  · by_cases hD : 0 < diffusion_coeff
    · by_cases hb : 0 < beta
      · by_cases hsh : current_x.length = force.length
        · rw [if_neg (by simpa using hdt), if_neg (by simpa using hD),
            if_neg (by simpa using hb), if_neg (by simpa using hsh)]
          exact iff_of_true ⟨_, rfl⟩ ⟨hdt, hD, hb, hsh⟩
        · rw [if_neg (by simpa using hdt), if_neg (by simpa using hD),
            if_neg (by simpa using hb), if_pos (by simpa using hsh)]
          exact iff_of_false (by rintro ⟨y, hy⟩; exact Except.noConfusion hy)
            (by rintro ⟨_, _, _, hc⟩; exact hsh hc)
      · rw [if_neg (by simpa using hdt), if_neg (by simpa using hD),
          if_pos (by simpa using hb)]
        exact iff_of_false (by rintro ⟨y, hy⟩; exact Except.noConfusion hy)
          (by rintro ⟨_, _, hc, _⟩; exact hb hc)
    · rw [if_neg (by simpa using hdt), if_pos (by simpa using hD)]
      exact iff_of_false (by rintro ⟨y, hy⟩; exact Except.noConfusion hy)
        (by rintro ⟨_, hc, _, _⟩; exact hD hc)
  · rw [if_pos (by simpa using hdt)]
    exact iff_of_false (by rintro ⟨y, hy⟩; exact Except.noConfusion hy)
      (by rintro ⟨hc, _, _, _⟩; exact hdt hc)

/-- Helper: the generate_path integration loop only ever appends freshly
allocated arrays to the store. -/
theorem generate_path_heap_loop_extends (force_function : List ℝ → List ℝ)
    (beta dt diffusion_coeff : ℝ) (gauss : ℕ → ℕ → ℝ) (n : ℕ)
    (st : List (List ℝ) × ℕ) :
    ∃ t, (generate_path_heap_loop force_function beta dt diffusion_coeff gauss n st).1 =
      st.1 ++ t := by
  induction n generalizing st with
  | zero => exact ⟨[], by simp [generate_path_heap_loop]⟩
  | succ m ih =>
    simp only [generate_path_heap_loop]
    obtain ⟨t, ht⟩ := ih (update_positions_heap st.1 st.2
      (force_function (st.1.getD st.2 [])) beta dt diffusion_coeff (gauss m))
    refine ⟨next_position (st.1.getD st.2 []) (force_function (st.1.getD st.2 [])) beta dt
      diffusion_coeff (gauss m) :: t, ?_⟩
    rw [ht]
    simp [update_positions_heap]

/-- Helper: the generate_path_to_state integration loop only ever appends
freshly allocated arrays to the store. -/
theorem generate_path_to_state_heap_loop_extends (state_functions : List (List ℝ → Bool))
    (force_function : List ℝ → List ℝ) (beta dt diffusion_coeff : ℝ)
    (gauss : ℕ → ℕ → ℝ) (n : ℕ) (st : List (List ℝ) × ℕ) :
    ∃ t, (generate_path_to_state_heap_loop state_functions force_function beta dt
      diffusion_coeff gauss n st).1 = st.1 ++ t := by
  induction n generalizing st with
  | zero => exact ⟨[], by simp [generate_path_to_state_heap_loop]⟩
  | succ m ih =>
    simp only [generate_path_to_state_heap_loop]
    by_cases hstop : (state_functions.any fun s => s (st.1.getD st.2 [])) = true
    · rw [if_pos hstop]
      exact ⟨[], by simp⟩
    · rw [if_neg hstop]
      obtain ⟨t, ht⟩ := ih (update_positions_heap st.1 st.2
        (force_function (st.1.getD st.2 [])) beta dt diffusion_coeff (gauss m))
      refine ⟨next_position (st.1.getD st.2 []) (force_function (st.1.getD st.2 [])) beta dt
        diffusion_coeff (gauss m) :: t, ?_⟩
      rw [ht]
      simp [update_positions_heap]

/-- Claim C10: in the store-passing model of the numpy heap, update_positions
leaves the array it was given unchanged and returns a freshly allocated
array, and generate_path and generate_path_to_state copy the shooting point
before integrating, so the caller's shooting-point array holds the same
values afterwards. -/
theorem propagation_leaves_inputs_unchanged (h : List (List ℝ)) (x_index : ℕ)
    (force : List ℝ) (beta dt diffusion_coeff : ℝ) (gauss : ℕ → ℝ)
    (shooting_point path_length : ℕ) (state_functions : List (List ℝ → Bool))
    (force_function : List ℝ → List ℝ) (gauss2 : ℕ → ℕ → ℝ)
    (hx : x_index < h.length) (hsp : shooting_point < h.length) :
    ((update_positions_heap h x_index force beta dt diffusion_coeff gauss).1.getD
        x_index [] = h.getD x_index []) ∧
    ((update_positions_heap h x_index force beta dt diffusion_coeff gauss).2 = h.length) ∧
    ((generate_path_heap h shooting_point path_length force_function beta dt
        diffusion_coeff gauss2).1.getD shooting_point [] = h.getD shooting_point []) ∧
    ((generate_path_to_state_heap h shooting_point path_length state_functions
        force_function beta dt diffusion_coeff gauss2).1.getD shooting_point [] =
      h.getD shooting_point []) := by
  refine ⟨?_, rfl, ?_, ?_⟩
  · exact List.getD_append _ _ _ _ hx
  · obtain ⟨t, ht⟩ := generate_path_heap_loop_extends force_function beta dt diffusion_coeff
      gauss2 path_length (h ++ [h.getD shooting_point []], h.length)
    unfold generate_path_heap
    rw [ht]
    rw [List.append_assoc]
    exact List.getD_append _ _ _ _ hsp
  · obtain ⟨t, ht⟩ := generate_path_to_state_heap_loop_extends state_functions
      force_function beta dt diffusion_coeff gauss2 path_length
      (h ++ [h.getD shooting_point []], h.length)
    unfold generate_path_to_state_heap
    rw [ht]
    rw [List.append_assoc]
    exact List.getD_append _ _ _ _ hsp

/-- Witness for C10: a one-array store holding [1], stepped once and run for
two integration steps. -/
theorem propagation_leaves_inputs_unchanged_witness :
    0 < ([[(1 : ℝ)]] : List (List ℝ)).length ∧
    (((update_positions_heap [[(1 : ℝ)]] 0 [(0 : ℝ)] 1 1 1 (fun _ => 0)).1.getD 0 [] =
        ([[(1 : ℝ)]] : List (List ℝ)).getD 0 []) ∧
      ((update_positions_heap [[(1 : ℝ)]] 0 [(0 : ℝ)] 1 1 1 (fun _ => 0)).2 =
        ([[(1 : ℝ)]] : List (List ℝ)).length) ∧
      ((generate_path_heap [[(1 : ℝ)]] 0 2 (fun _ => [(0 : ℝ)]) 1 1 1
          (fun _ _ => 0)).1.getD 0 [] = ([[(1 : ℝ)]] : List (List ℝ)).getD 0 []) ∧
      ((generate_path_to_state_heap [[(1 : ℝ)]] 0 2 [] (fun _ => [(0 : ℝ)]) 1 1 1
          (fun _ _ => 0)).1.getD 0 [] = ([[(1 : ℝ)]] : List (List ℝ)).getD 0 [])) :=
  ⟨Nat.one_pos,
    propagation_leaves_inputs_unchanged [[(1 : ℝ)]] 0 [(0 : ℝ)] 1 1 1 (fun _ => 0) 0 2 []
      (fun _ => [(0 : ℝ)]) (fun _ _ => 0) Nat.one_pos Nat.one_pos⟩

end AdvMS
